import Mathlib

/-!
Verification development for the feitian-sk-manager transport layer.

Part 1 embeds the code that is actually present in the repository
(src/wasm/src/lib.rs): the module lifecycle function `init`, which has an
empty body, and `on_usb_data`, whose body is `data.to_vec()`.

Part 2 models the CTAPHID framing/multiplexing engine that the repository's
specification describes (PacketCodec, ChannelTable, ProtocolEngine).  That
engine is not present in the repository: lib.rs only declares the entry
points and marks the protocol work as TODO, so every definition in part 2
is modelled from the specification text, as its doc comment records.
Bytes are represented as natural numbers (the value range 0..256 of u8);
fixed-size HID reports are lists of bytes.
-/

namespace FeitianSK

/-- Module state of src/wasm/src/lib.rs.  The crate declares no `static`
items and no interior mutability, so the module state is empty. -/
def ModState : Type := Unit

/-- Embedding of `init` from src/wasm/src/lib.rs.  Its body consists only
of TODO comments, so it leaves the (empty) module state unchanged. -/
def init (s : ModState) : ModState := s

/-- Embedding of `on_usb_data` from src/wasm/src/lib.rs.  The body is
`data.to_vec()`: a copy of the input slice, returned unconditionally. -/
def on_usb_data (data : List Nat) : List Nat := data

/-- `on_usb_data` as a transformer of the module state, making explicit
that the call reads and writes no state. -/
def on_usb_data_st (s : ModState) (data : List Nat) : ModState × List Nat :=
  (s, on_usb_data data)

/-- A call into the WASM module, for reasoning about call histories. -/
inductive Call
  | callInit
  | callUsb (data : List Nat)

/-- Run a history of calls against the module state. -/
def runState : ModState → List Call → ModState
  | s, [] => s
  | s, Call.callInit :: r => runState (init s) r
  | s, Call.callUsb d :: r => runState (on_usb_data_st s d).1 r

/-! ## Part 2: the CTAPHID engine modelled from the specification. -/

/-- Modelled from the spec: the fixed HID report size R (default 64).
The PacketCodec implementing this is missing from the repository. -/
def reportSize : Nat := 64

/-- Modelled from the spec: payload capacity of an initialization packet,
R - 7 (4-byte channel id, 1-byte command, 2-byte total length). -/
def initCapacity : Nat := reportSize - 7

/-- Modelled from the spec: payload capacity of a continuation packet,
R - 5 (4-byte channel id, 1-byte sequence number). -/
def contCapacity : Nat := reportSize - 5

/-- Modelled from the spec: maximum message size, one init-packet capacity
plus 128 continuation-packet capacities. -/
def maxMsgSize : Nat := initCapacity + 128 * contCapacity

/-- Modelled from the spec: the reserved broadcast channel id, used only
for allocation handshakes. -/
def broadcastCid : Nat := 2 ^ 32 - 1

/-- Modelled from the spec: the per-channel receive timeout window, a bound
on the order of hundreds of milliseconds. -/
def timeoutWindow : Nat := 500

/-- Modelled from the spec: the CTAPHID PING command byte. -/
def cmdPING : Nat := 0x01

/-- Modelled from the spec: the CTAPHID MSG command byte. -/
def cmdMSG : Nat := 0x03

/-- Modelled from the spec: the CTAPHID LOCK command byte. -/
def cmdLOCK : Nat := 0x04

/-- Modelled from the spec: the CTAPHID INIT command byte. -/
def cmdINIT : Nat := 0x06

/-- Modelled from the spec: the CTAPHID WINK command byte. -/
def cmdWINK : Nat := 0x08

/-- Modelled from the spec: the CTAPHID CBOR command byte. -/
def cmdCBOR : Nat := 0x10

/-- Modelled from the spec: the CTAPHID CANCEL command byte. -/
def cmdCANCEL : Nat := 0x11

/-- Modelled from the spec: the CTAPHID KEEPALIVE command byte. -/
def cmdKEEPALIVE : Nat := 0x3B

/-- Modelled from the spec: the CTAPHID ERROR command byte. -/
def cmdERROR : Nat := 0x3F

/-- Big-endian 2-byte encoding of a 16-bit value. -/
def be2 (n : Nat) : List Nat := [n / 256 % 256, n % 256]

/-- Big-endian 4-byte encoding of a 32-bit value. -/
def be4 (n : Nat) : List Nat :=
  [n / 2 ^ 24 % 256, n / 2 ^ 16 % 256, n / 2 ^ 8 % 256, n % 256]

/-- Reassemble a 16-bit value from two big-endian bytes. -/
def fromBe2 (a b : Nat) : Nat := a * 256 + b

/-- Reassemble a 32-bit value from four big-endian bytes. -/
def fromBe4 (a b c d : Nat) : Nat := ((a * 256 + b) * 256 + c) * 256 + d

/-- Truncate or zero-pad a byte list to exactly n bytes. -/
def padTo (n : Nat) (l : List Nat) : List Nat :=
  l.take n ++ List.replicate (n - l.length) 0

/-- Modelled from the spec: the best-determinable channel of a raw report,
its first four bytes when present, the broadcast channel otherwise. -/
def bestCid : List Nat → Nat
  | a :: b :: c :: d :: _ => fromBe4 a b c d
  | _ => broadcastCid

/-- Modelled from the spec: the PacketCodec decode failure. -/
inductive CodecError
  | MalformedPacket
deriving Repr, DecidableEq

/-- Modelled from the spec: the closed set of one-byte ERROR payload codes. -/
inductive ErrCode
  | InvalidCmd
  | InvalidPar
  | InvalidLen
  | InvalidSeq
  | MsgTimeout
  | ChannelBusy
  | LockRequired
  | InvalidChannel
  | Other
deriving Repr, DecidableEq

/-- Modelled from the spec: the wire byte of each error code. -/
def errByte : ErrCode → Nat
  | ErrCode.InvalidCmd => 0x01
  | ErrCode.InvalidPar => 0x02
  | ErrCode.InvalidLen => 0x03
  | ErrCode.InvalidSeq => 0x04
  | ErrCode.MsgTimeout => 0x05
  | ErrCode.ChannelBusy => 0x06
  | ErrCode.LockRequired => 0x0A
  | ErrCode.InvalidChannel => 0x0B
  | ErrCode.Other => 0x7F

/-- Modelled from the spec: a decoded packet, either an initialization
packet (channel id, command, declared total length, payload fragment) or a
continuation packet (channel id, sequence number, payload fragment). -/
inductive Packet
  | initPkt (cid cmd totalLen : Nat) (payload : List Nat)
  | contPkt (cid seq : Nat) (payload : List Nat)
deriving Repr, DecidableEq

/-- Channel id of a decoded packet. -/
def Packet.cid : Packet → Nat
  | Packet.initPkt c _ _ _ => c
  | Packet.contPkt c _ _ => c

/-- Modelled from the spec: PacketCodec.decode.  Fails with MalformedPacket
if the raw length differs from the report size; otherwise the first four
bytes are the channel id and the high bit of the fifth byte selects the
initialization shape (command, 2-byte big-endian total length, payload)
over the continuation shape (sequence number, payload). -/
def decode (raw : List Nat) : Except CodecError Packet :=
  if raw.length = reportSize then
    match raw with
    | a :: b :: c :: d :: e :: rest =>
      if 128 ≤ e then
        match rest with
        | l1 :: l2 :: payload =>
          Except.ok (Packet.initPkt (fromBe4 a b c d) (e - 128) (fromBe2 l1 l2) payload)
        | _ => Except.error CodecError.MalformedPacket
      else
        Except.ok (Packet.contPkt (fromBe4 a b c d) e rest)
    | _ => Except.error CodecError.MalformedPacket
  else Except.error CodecError.MalformedPacket

/-- Modelled from the spec: PacketCodec.encode_init.  Four channel-id
bytes, the command byte with its high bit set, the 2-byte big-endian total
length, and the payload slice zero-padded to R - 7 bytes. -/
def encode_init (cid cmd totalLen : Nat) (payloadSlice : List Nat) : List Nat :=
  be4 cid ++ [cmd + 128] ++ be2 totalLen ++ padTo initCapacity payloadSlice

/-- Modelled from the spec: PacketCodec.encode_cont.  Four channel-id
bytes, the sequence byte (high bit clear for sequence numbers 0..127), and
the payload slice zero-padded to R - 5 bytes. -/
def encode_cont (cid seq : Nat) (payloadSlice : List Nat) : List Nat :=
  be4 cid ++ [seq] ++ padTo contCapacity payloadSlice

/-- Modelled from the spec: the fixed-shape single-packet ERROR response,
command ERROR with a one-byte payload from the closed error-code set. -/
def errPacket (cid : Nat) (code : ErrCode) : List Nat :=
  encode_init cid cmdERROR 1 [errByte code]

/-- Modelled from the spec: per-channel protocol state. -/
inductive ChState
  | Idle
  | Receiving
  | Dispatching
  | ErrorSt
deriving Repr, DecidableEq

/-- Modelled from the spec: an in-flight message: channel id, command byte,
declared total length, accumulated payload buffer, next expected sequence
number, creation timestamp.  The bytes received so far are the length of
the accumulated buffer. -/
structure Message where
  cid : Nat
  cmd : Nat
  totalLen : Nat
  buffer : List Nat
  nextSeq : Nat
  created : Nat
deriving Repr, DecidableEq

/-- Modelled from the spec: a channel: state, owned message (if any), and
lock-holder flag. -/
structure Channel where
  st : ChState
  msg : Option Message
  lockFlag : Bool
deriving Repr, DecidableEq

/-- A fresh idle channel holding no message and no lock. -/
def defaultCh : Channel := ⟨ChState.Idle, none, false⟩

/-- Modelled from the spec: ChannelTable lookup.  A channel that was never
written is a fresh idle channel. -/
def getCh : List (Nat × Channel) → Nat → Channel
  | [], _ => defaultCh
  | p :: t, cid => if p.1 = cid then p.2 else getCh t cid

/-- Modelled from the spec: ChannelTable update of a single channel. -/
def setCh : List (Nat × Channel) → Nat → Channel → List (Nat × Channel)
  | [], cid, c => [(cid, c)]
  | p :: t, cid, c => if p.1 = cid then (cid, c) :: t else p :: setCh t cid c

/-- Modelled from the spec: whether some channel other than cid currently
holds the lock. -/
def lockHeldByOther : List (Nat × Channel) → Nat → Bool
  | [], _ => false
  | p :: t, cid =>
    if p.1 = cid then lockHeldByOther t cid
    else p.2.lockFlag || lockHeldByOther t cid

/-- Modelled from the spec: the ProtocolEngine state: the owned
ChannelTable, the engine clock last supplied by on_tick, and the handle to
the external command-processor collaborator obtained by init(). -/
structure Engine where
  table : List (Nat × Channel)
  clock : Nat
  hasDispatcher : Bool
deriving Repr, DecidableEq

/-- Modelled from the spec: an observable engine effect: an outgoing raw
report handed to the host, or a completed message handed to the external
command-processor collaborator. -/
inductive Event
  | send (raw : List Nat)
  | dispatch (cid cmd : Nat) (payload : List Nat)
deriving Repr, DecidableEq

/-- Modelled from the spec: the lock-holder flag of a channel after its
message completes.  A LOCK command is acted on by the engine itself: a
zero first payload byte releases the channel's lock, a nonzero byte
acquires it when no other channel holds it; any other command leaves the
flag unchanged. -/
def lockFlagAfter (s : Engine) (cid cmd : Nat) (buf : List Nat) : Bool :=
  if cmd = cmdLOCK then
    if buf.headD 0 = 0 then false
    else if lockHeldByOther s.table cid then (getCh s.table cid).lockFlag
    else true
  else (getCh s.table cid).lockFlag

/-- Modelled from the spec: the channel value entering Dispatching once its
message has been reassembled. -/
def dispatchCh (s : Engine) (cid cmd : Nat) (buf : List Nat) : Channel :=
  ⟨ChState.Dispatching, some ⟨cid, cmd, buf.length, buf, 0, s.clock⟩, lockFlagAfter s cid cmd buf⟩

/-- Modelled from the spec: completion of a reassembled message.  The lock
action of a LOCK command is applied, every completed message is handed to
the dispatcher with the same channel id, command and reassembled payload,
and the channel enters Dispatching. -/
def completeMsg (s : Engine) (cid cmd : Nat) (buf : List Nat) : Engine × List Event :=
  ({ s with table := setCh s.table cid (dispatchCh s cid cmd buf) }, [Event.dispatch cid cmd buf])

/-- Modelled from the spec: the channel value entering Receiving after an
init packet whose declared length exceeds one packet, holding the fresh
message and expecting sequence number 0. -/
def receivingCh (s : Engine) (cid cmd totalLen : Nat) (buf : List Nat) : Channel :=
  ⟨ChState.Receiving, some ⟨cid, cmd, totalLen, buf, 0, s.clock⟩, (getCh s.table cid).lockFlag⟩

/-- Modelled from the spec: a Receiving channel updated by one in-order
continuation fragment: the buffer grows and the expected sequence number
advances by one, while the lock-holder flag is kept. -/
def contUpdCh (m : Message) (f : Bool) (buf : List Nat) : Channel :=
  ⟨ChState.Receiving, some { m with buffer := buf, nextSeq := m.nextSeq + 1 }, f⟩

/-- Modelled from the spec: handling of a decoded initialization packet.
Reserved channel ids are rejected with InvalidChannel; while another
channel holds the lock the command is rejected with LockRequired; a
declared length above the maximum message size is rejected with
InvalidLen.  Otherwise a new message is created from the declared total
length (most-recent-init wins on a busy channel): if the whole payload
fits the init packet, completion is immediate and Receiving is skipped;
otherwise the channel enters Receiving expecting sequence number 0. -/
def handleInit (s : Engine) (cid cmd totalLen : Nat) (payload : List Nat) : Engine × List Event :=
  if cid = 0 ∨ cid = broadcastCid then
    (s, [Event.send (errPacket cid ErrCode.InvalidChannel)])
  else if lockHeldByOther s.table cid then
    (s, [Event.send (errPacket cid ErrCode.LockRequired)])
  else if maxMsgSize < totalLen then
    (s, [Event.send (errPacket cid ErrCode.InvalidLen)])
  else if (payload.take totalLen).length = totalLen then
    completeMsg s cid cmd (payload.take totalLen)
  else
    ({ s with table := setCh s.table cid (receivingCh s cid cmd totalLen (payload.take totalLen)) }, [])

/-- Modelled from the spec: handling of a decoded continuation packet.
Valid only while its channel is Receiving with the expected sequence
number, in which case the needed bytes of the fragment are appended and
the message completes when the declared length is reached.  A mismatched
sequence aborts the transaction with InvalidSeq and returns the channel to
Idle (releasing its lock, as on any channel reset); a continuation on an
idle channel is answered with InvalidChannel, the documented default. -/
def handleContCh (s : Engine) (cid seq : Nat) (payload : List Nat) : Channel → Engine × List Event
  | ⟨ChState.Receiving, some m, f⟩ =>
    if seq = m.nextSeq then
      if (m.buffer ++ payload.take (m.totalLen - m.buffer.length)).length = m.totalLen then
        completeMsg s cid m.cmd (m.buffer ++ payload.take (m.totalLen - m.buffer.length))
      else
        ({ s with table := setCh s.table cid (contUpdCh m f (m.buffer ++ payload.take (m.totalLen - m.buffer.length))) }, [])
    else
      ({ s with table := setCh s.table cid ⟨ChState.Idle, none, false⟩ },
       [Event.send (errPacket cid ErrCode.InvalidSeq)])
  | _ => (s, [Event.send (errPacket cid ErrCode.InvalidChannel)])

/-- Modelled from the spec: dispatch of a continuation packet to its
channel, looked up in the table. -/
def handleCont (s : Engine) (cid seq : Nat) (payload : List Nat) : Engine × List Event :=
  if cid = 0 ∨ cid = broadcastCid then
    (s, [Event.send (errPacket cid ErrCode.InvalidChannel)])
  else handleContCh s cid seq payload (getCh s.table cid)

/-- Modelled from the spec: the engine's packet-receiving entry point
on_packet.  A raw report that fails to decode is a framing error, answered
with a single ERROR packet on the best-determinable channel and otherwise
discarded; decoded packets go to the matching handler. -/
def onPacket (s : Engine) (raw : List Nat) : Engine × List Event :=
  match decode raw with
  | Except.error _ => (s, [Event.send (errPacket (bestCid raw) ErrCode.Other)])
  | Except.ok (Packet.initPkt cid cmd totalLen payload) => handleInit s cid cmd totalLen payload
  | Except.ok (Packet.contPkt cid seq payload) => handleCont s cid seq payload

/-- Modelled from the spec: per-channel timeout evaluation.  A channel in
Receiving whose message is older than the timeout window returns to Idle
(releasing its lock) and reports MsgTimeout; every other channel is left
unchanged. -/
def tickCh (now : Nat) (ch : Channel) : Channel × Option ErrCode :=
  match ch.st, ch.msg with
  | ChState.Receiving, some m =>
    if timeoutWindow < now - m.created then (⟨ChState.Idle, none, false⟩, some ErrCode.MsgTimeout)
    else (ch, none)
  | _, _ => (ch, none)

/-- Modelled from the spec: the engine's periodic entry point on_tick,
which advances the engine clock and evaluates per-channel timeouts. -/
def onTick (s : Engine) (now : Nat) : Engine × List Event :=
  ({ s with table := s.table.map fun p => (p.1, (tickCh now p.2).1), clock := now },
   s.table.filterMap fun p => ((tickCh now p.2).2).map fun code => Event.send (errPacket p.1 code))

/-- Modelled from the spec: the engine state produced by the lifecycle
call init(): an empty (all-idle) ChannelTable, reset timers, and a live
handle to the command-processor collaborator. -/
def initEngine : Engine := ⟨[], 0, true⟩

/-- Modelled from the spec: the lifecycle call init().  It resets the
ChannelTable and timers and obtains the command-processor handle; it
performs no protocol work, so it emits no events. -/
def engineInit (_s : Engine) : Engine × List Event := (initEngine, [])

/-- Replay a list of raw reports in order through the packet-receiving
entry point, collecting the emitted events. -/
def replay (s : Engine) : List (List Nat) → Engine × List Event
  | [] => (s, [])
  | raw :: rest =>
    let r := onPacket s raw
    let r2 := replay r.1 rest
    (r2.1, r.2 ++ r2.2)

/-- Modelled from the spec: the continuation packets of a fragmented
message, produced by chunks of R - 5 payload bytes with sequence numbers
counting up from seq0.  The fuel argument bounds the recursion; any fuel
of at least the number of chunks yields all of them. -/
def contPacketsFuel : Nat → Nat → Nat → List Nat → List (List Nat)
  | 0, _, _, _ => []
  | fuel + 1, cid, seq0, rest =>
    if rest.isEmpty then []
    else encode_cont cid seq0 (rest.take contCapacity)
      :: contPacketsFuel fuel cid (seq0 + 1) (rest.drop contCapacity)

/-- Modelled from the spec: all continuation packets of a fragmented
message starting at sequence number seq0. -/
def contPackets (cid seq0 : Nat) (rest : List Nat) : List (List Nat) :=
  contPacketsFuel rest.length cid seq0 rest

/-- Modelled from the spec: splitting a payload per the capacity rules:
one init packet carrying the declared total length and the first R - 7
bytes, then continuation packets of R - 5 bytes with sequence numbers
restarting at 0. -/
def splitMessage (cid cmd : Nat) (payload : List Nat) : List (List Nat) :=
  encode_init cid cmd payload.length (payload.take initCapacity)
    :: contPackets cid 0 (payload.drop initCapacity)

/-- Modelled from the spec: one observable engine step, either a received
report or a timer tick. -/
inductive Step : Engine → Engine → Prop
  | pkt (s : Engine) (raw : List Nat) : Step s (onPacket s raw).1
  | tick (s : Engine) (now : Nat) : Step s (onTick s now).1

/-- Modelled from the spec: the engine states reachable from the state
produced by init() under received reports and timer ticks. -/
inductive Reachable : Engine → Prop
  | base : Reachable initEngine
  | step {s s' : Engine} : Reachable s → Step s s' → Reachable s'

/-- The single-lock-holder invariant over a channel table: at most one
channel's lock-holder flag is set. -/
def LockInv (t : List (Nat × Channel)) : Prop :=
  ∀ a b : Nat, (getCh t a).lockFlag = true → (getCh t b).lockFlag = true → a = b

end FeitianSK

namespace FeitianSK

/-! ## Basic lemmas about bytes, padding and the channel table. -/

theorem fromBe4_be4 (n : Nat) (h : n < 2 ^ 32) :
    fromBe4 (n / 2 ^ 24 % 256) (n / 2 ^ 16 % 256) (n / 2 ^ 8 % 256) (n % 256) = n := by
  unfold fromBe4
  omega

theorem fromBe2_be2 (n : Nat) (h : n < 2 ^ 16) : fromBe2 (n / 256 % 256) (n % 256) = n := by
  unfold fromBe2
  omega

theorem padTo_length (n : Nat) (l : List Nat) : (padTo n l).length = n := by
  simp [padTo]
  omega

theorem padTo_eq_of_length (n : Nat) (l : List Nat) (h : l.length = n) : padTo n l = l := by
  simp [padTo, h, List.take_of_length_le (Nat.le_of_eq h)]

theorem take_padTo (c : Nat) (rest : List Nat) :
    (padTo c (rest.take c)).take rest.length = rest.take c := by
  rcases le_or_lt rest.length c with hle | hlt
  · rw [List.take_of_length_le hle, padTo, List.take_of_length_le hle,
      List.take_left' rfl]
  · have hlen : (rest.take c).length = c := by
      rw [List.length_take]
      omega
    rw [padTo_eq_of_length c _ hlen, List.take_of_length_le (by omega)]

end FeitianSK

namespace FeitianSK

theorem getCh_setCh_self (t : List (Nat × Channel)) (cid : Nat) (c : Channel) :
    getCh (setCh t cid c) cid = c := by
  induction t with
  | nil => simp [setCh, getCh]
  | cons p t ih =>
    by_cases h : p.1 = cid
    · simp [setCh, h, getCh]
    · simp [setCh, h, getCh, ih]

theorem getCh_setCh_ne (t : List (Nat × Channel)) (cid b : Nat) (c : Channel) (hb : b ≠ cid) :
    getCh (setCh t cid c) b = getCh t b := by
  have hcb : cid ≠ b := fun h => hb h.symm
  induction t with
  | nil => simp [setCh, getCh, hcb]
  | cons p t ih =>
    by_cases h : p.1 = cid
    · have hpb : p.1 ≠ b := by rw [h]; exact hcb
      simp [setCh, h, getCh, hcb, hpb]
    · by_cases h2 : p.1 = b
      · simp [setCh, h, getCh, h2, hb]
      · simp [setCh, h, getCh, h2, ih]

theorem lockHeldByOther_false (t : List (Nat × Channel)) (cid : Nat)
    (h : lockHeldByOther t cid = false) :
    ∀ b : Nat, b ≠ cid → (getCh t b).lockFlag = false := by
  induction t with
  | nil => intro b _; simp [getCh, defaultCh]
  | cons p t ih =>
    intro b hb
    by_cases hp : p.1 = cid
    · rw [lockHeldByOther, if_pos hp] at h
      rw [getCh, if_neg (by rw [hp]; exact fun h2 => hb h2.symm)]
      exact ih h b hb
    · rw [lockHeldByOther, if_neg hp, Bool.or_eq_false_iff] at h
      by_cases h2 : p.1 = b
      · rw [getCh, if_pos h2]
        exact h.1
      · rw [getCh, if_neg h2]
        exact ih h.2 b hb

theorem lockHeldByOther_true (t : List (Nat × Channel)) (cid b : Nat)
    (hflag : (getCh t b).lockFlag = true) (hb : b ≠ cid) :
    lockHeldByOther t cid = true := by
  cases h : lockHeldByOther t cid
  · rw [lockHeldByOther_false t cid h b hb] at hflag
    exact absurd hflag (by simp)
  · rfl

end FeitianSK
namespace FeitianSK

/-! ## Codec lemmas. -/

theorem decode_ne_length (raw : List Nat) (h : raw.length ≠ reportSize) :
    decode raw = Except.error CodecError.MalformedPacket := by
  unfold decode
  rw [if_neg h]

theorem encode_init_length (cid cmd totalLen : Nat) (sl : List Nat) :
    (encode_init cid cmd totalLen sl).length = reportSize := by
  simp [encode_init, be4, be2, padTo_length, reportSize, initCapacity]

theorem encode_cont_length (cid seq : Nat) (sl : List Nat) :
    (encode_cont cid seq sl).length = reportSize := by
  simp [encode_cont, be4, padTo_length, reportSize, contCapacity]

theorem decode_encode_init (cid cmd totalLen : Nat) (sl : List Nat)
    (h32 : cid < 2 ^ 32) (hcmd : cmd < 128) (hlen : totalLen < 2 ^ 16) :
    decode (encode_init cid cmd totalLen sl)
      = Except.ok (Packet.initPkt cid cmd totalLen (padTo initCapacity sl)) := by
  simp only [encode_init, be4, be2, List.cons_append, List.nil_append]
  unfold decode
  simp only [List.length_cons, padTo_length]
  rw [if_pos (by norm_num [reportSize, initCapacity])]
  rw [if_pos (by omega : 128 ≤ cmd + 128)]
  rw [fromBe4_be4 cid h32, fromBe2_be2 totalLen hlen]
  rw [(by omega : cmd + 128 - 128 = cmd)]

theorem decode_encode_cont (cid seq : Nat) (sl : List Nat)
    (h32 : cid < 2 ^ 32) (hseq : seq < 128) :
    decode (encode_cont cid seq sl)
      = Except.ok (Packet.contPkt cid seq (padTo contCapacity sl)) := by
  simp only [encode_cont, be4, List.cons_append, List.nil_append]
  unfold decode
  simp only [List.length_cons, padTo_length]
  rw [if_pos (by norm_num [reportSize, contCapacity])]
  rw [if_neg (by omega : ¬ 128 ≤ seq)]
  rw [fromBe4_be4 cid h32]

theorem decode_ok_cid (raw : List Nat) (pkt : Packet) (h : decode raw = Except.ok pkt) :
    Packet.cid pkt = bestCid raw := by
  rcases raw with _ | ⟨a, _ | ⟨b, _ | ⟨c, _ | ⟨d, _ | ⟨e, rest⟩⟩⟩⟩⟩
  · simp [decode, reportSize] at h
  · simp [decode, reportSize] at h
  · simp [decode, reportSize] at h
  · simp [decode, reportSize] at h
  · simp [decode, reportSize] at h
  · unfold decode at h
    split at h
    · split at h
      · split at h
        · split at h
          · cases h
            simp_all [Packet.cid, bestCid]
          · cases h
        · cases h
          simp_all [Packet.cid, bestCid]
      · rename_i hno
        exact absurd rfl (hno a b c d e rest)
    · cases h

end FeitianSK

namespace FeitianSK

/-! ## Engine lemmas: ticks, framing, and the lock invariant. -/

theorem getCh_map_tick (t : List (Nat × Channel)) (now b : Nat) :
    getCh (t.map fun p => (p.1, (tickCh now p.2).1)) b = (tickCh now (getCh t b)).1 := by
  induction t with
  | nil => simp [getCh, defaultCh, tickCh]
  | cons p t ih =>
    by_cases h : p.1 = b
    · simp [getCh, h]
    · simp [getCh, h, ih]

theorem getCh_onTick (s : Engine) (now b : Nat) :
    getCh (onTick s now).1.table b = (tickCh now (getCh s.table b)).1 :=
  getCh_map_tick s.table now b

theorem tickCh_keep (now : Nat) (ch : Channel)
    (h : ∀ m : Message, ch.st = ChState.Receiving → ch.msg = some m →
      now - m.created ≤ timeoutWindow) :
    (tickCh now ch).1 = ch := by
  rcases ch with ⟨st, msg, f⟩
  cases st <;> rcases msg with _ | m <;> simp [tickCh]
  have hm := h m rfl rfl
  rw [if_neg (by omega)]

theorem tickCh_flag (now : Nat) (ch : Channel)
    (h : ((tickCh now ch).1).lockFlag = true) : ch.lockFlag = true := by
  rcases ch with ⟨st, msg, f⟩
  cases st <;> rcases msg with _ | m <;> try exact h
  have h2 : ((if timeoutWindow < now - m.created then
      ((⟨ChState.Idle, none, false⟩ : Channel), some ErrCode.MsgTimeout)
    else ((⟨ChState.Receiving, some m, f⟩ : Channel), none)).1).lockFlag = true := h
  by_cases hc : timeoutWindow < now - m.created
  · rw [if_pos hc] at h2
    simp at h2
  · rw [if_neg hc] at h2
    exact h2

end FeitianSK

namespace FeitianSK

theorem LockInv_setCh_false (t : List (Nat × Channel)) (cid : Nat) (c : Channel)
    (hc : c.lockFlag = false) (h : LockInv t) : LockInv (setCh t cid c) := by
  intro a b ha hb
  by_cases hac : a = cid
  · rw [hac, getCh_setCh_self, hc] at ha
    cases ha
  · rw [getCh_setCh_ne t cid a c hac] at ha
    by_cases hbc : b = cid
    · rw [hbc, getCh_setCh_self, hc] at hb
      cases hb
    · rw [getCh_setCh_ne t cid b c hbc] at hb
      exact h a b ha hb

theorem LockInv_setCh_keep (t : List (Nat × Channel)) (cid : Nat) (c : Channel)
    (hc : c.lockFlag = (getCh t cid).lockFlag) (h : LockInv t) : LockInv (setCh t cid c) := by
  intro a b ha hb
  by_cases hac : a = cid
  · rw [hac, getCh_setCh_self, hc] at ha
    by_cases hbc : b = cid
    · rw [hac, hbc]
    · rw [getCh_setCh_ne t cid b c hbc] at hb
      rw [hac]
      exact h cid b ha hb
  · rw [getCh_setCh_ne t cid a c hac] at ha
    by_cases hbc : b = cid
    · rw [hbc, getCh_setCh_self, hc] at hb
      rw [hbc]
      exact h a cid ha hb
    · rw [getCh_setCh_ne t cid b c hbc] at hb
      exact h a b ha hb

theorem LockInv_setCh_acquire (t : List (Nat × Channel)) (cid : Nat) (c : Channel)
    (hno : lockHeldByOther t cid = false) : LockInv (setCh t cid c) := by
  intro a b ha hb
  by_cases hac : a = cid
  · by_cases hbc : b = cid
    · rw [hac, hbc]
    · rw [getCh_setCh_ne t cid b c hbc] at hb
      rw [lockHeldByOther_false t cid hno b hbc] at hb
      cases hb
  · rw [getCh_setCh_ne t cid a c hac] at ha
    rw [lockHeldByOther_false t cid hno a hac] at ha
    cases ha

theorem LockInv_completeMsg (s : Engine) (cid cmd : Nat) (buf : List Nat)
    (h : LockInv s.table) : LockInv (completeMsg s cid cmd buf).1.table := by
  unfold completeMsg
  by_cases hc : cmd = cmdLOCK
  · by_cases hh : buf.headD 0 = 0
    · exact LockInv_setCh_false _ _ _
        (by simp only [dispatchCh, lockFlagAfter, if_pos hc, if_pos hh]) h
    · cases ho : lockHeldByOther s.table cid
      · exact LockInv_setCh_acquire _ _ _ ho
      · exact LockInv_setCh_keep _ _ _
          (by simp only [dispatchCh, lockFlagAfter, if_pos hc, if_neg hh, ho, if_true]) h
  · exact LockInv_setCh_keep _ _ _ (by simp [dispatchCh, lockFlagAfter, hc]) h

theorem LockInv_handleInit (s : Engine) (cid cmd totalLen : Nat) (payload : List Nat)
    (h : LockInv s.table) : LockInv (handleInit s cid cmd totalLen payload).1.table := by
  unfold handleInit
  split
  · exact h
  · split
    · exact h
    · split
      · exact h
      · split
        · exact LockInv_completeMsg s cid cmd _ h
        · exact LockInv_setCh_keep _ _ _ (by simp [receivingCh]) h

theorem LockInv_handleContCh (s : Engine) (cid seq : Nat) (payload : List Nat) (ch : Channel)
    (hch : ch = getCh s.table cid) (h : LockInv s.table) :
    LockInv (handleContCh s cid seq payload ch).1.table := by
  rcases ch with ⟨st, msg, f⟩
  have hf : f = (getCh s.table cid).lockFlag := by rw [← hch]
  cases st <;> rcases msg with _ | m <;> try exact h
  unfold handleContCh
  split
  · rename_i x m2 f2 heq
    have hf2 : f = f2 := congrArg Channel.lockFlag heq
    split
    · split
      · exact LockInv_completeMsg s cid _ _ h
      · exact LockInv_setCh_keep _ _ _ (by simp [contUpdCh, ← hf2, hf]) h
    · exact LockInv_setCh_false _ _ _ rfl h
  · rename_i x hno
    exact absurd rfl (hno m f)

theorem LockInv_handleCont (s : Engine) (cid seq : Nat) (payload : List Nat)
    (h : LockInv s.table) : LockInv (handleCont s cid seq payload).1.table := by
  unfold handleCont
  split
  · exact h
  · exact LockInv_handleContCh s cid seq payload _ rfl h

theorem onPacket_eq_error (s : Engine) (raw : List Nat)
    (h : decode raw = Except.error CodecError.MalformedPacket) :
    onPacket s raw = (s, [Event.send (errPacket (bestCid raw) ErrCode.Other)]) := by
  unfold onPacket
  rw [h]

theorem onPacket_eq_init (s : Engine) (raw : List Nat) (cid cmd totalLen : Nat)
    (payload : List Nat) (h : decode raw = Except.ok (Packet.initPkt cid cmd totalLen payload)) :
    onPacket s raw = handleInit s cid cmd totalLen payload := by
  unfold onPacket
  rw [h]

theorem onPacket_eq_cont (s : Engine) (raw : List Nat) (cid seq : Nat)
    (payload : List Nat) (h : decode raw = Except.ok (Packet.contPkt cid seq payload)) :
    onPacket s raw = handleCont s cid seq payload := by
  unfold onPacket
  rw [h]

theorem LockInv_onPacket (s : Engine) (raw : List Nat)
    (h : LockInv s.table) : LockInv (onPacket s raw).1.table := by
  rcases hdec : decode raw with e | pkt
  · cases e
    rw [onPacket_eq_error s raw hdec]
    exact h
  · rcases pkt with ⟨cid, cmd, totalLen, payload⟩ | ⟨cid, seq, payload⟩
    · rw [onPacket_eq_init s raw cid cmd totalLen payload hdec]
      exact LockInv_handleInit s cid cmd totalLen payload h
    · rw [onPacket_eq_cont s raw cid seq payload hdec]
      exact LockInv_handleCont s cid seq payload h

theorem LockInv_onTick (s : Engine) (now : Nat)
    (h : LockInv s.table) : LockInv (onTick s now).1.table := by
  intro a b ha hb
  rw [getCh_onTick] at ha hb
  exact h a b (tickCh_flag now _ ha) (tickCh_flag now _ hb)

theorem reachable_LockInv (s : Engine) (h : Reachable s) : LockInv s.table := by
  induction h with
  | base =>
    intro a b ha hb
    simp [initEngine, getCh, defaultCh] at ha
  | step hr hs ih =>
    cases hs with
    | pkt raw => exact LockInv_onPacket _ raw ih
    | tick now => exact LockInv_onTick _ now ih

theorem getCh_handleContCh_ne (s : Engine) (cid seq : Nat) (payload : List Nat)
    (ch : Channel) (b : Nat) (hb2 : b ≠ cid) :
    getCh (handleContCh s cid seq payload ch).1.table b = getCh s.table b := by
  rcases ch with ⟨st, msg, f⟩
  cases st <;> rcases msg with _ | m <;> try rfl
  unfold handleContCh
  split
  · split
    · split
      · unfold completeMsg
        exact getCh_setCh_ne _ _ _ _ hb2
      · exact getCh_setCh_ne _ _ _ _ hb2
    · exact getCh_setCh_ne _ _ _ _ hb2
  · rename_i x hno
    exact absurd rfl (hno m f)

theorem getCh_onPacket_ne (s : Engine) (raw : List Nat) (b : Nat) (hb : b ≠ bestCid raw) :
    getCh (onPacket s raw).1.table b = getCh s.table b := by
  rcases hdec : decode raw with e | pkt
  · cases e
    rw [onPacket_eq_error s raw hdec]
  · have hcid := decode_ok_cid raw pkt hdec
    rcases pkt with ⟨cid, cmd, totalLen, payload⟩ | ⟨cid, seq, payload⟩
    · simp only [Packet.cid] at hcid
      have hb2 : b ≠ cid := by rw [hcid]; exact hb
      rw [onPacket_eq_init s raw cid cmd totalLen payload hdec]
      unfold handleInit
      split
      · rfl
      · split
        · rfl
        · split
          · rfl
          · split
            · unfold completeMsg
              exact getCh_setCh_ne _ _ _ _ hb2
            · exact getCh_setCh_ne _ _ _ _ hb2
    · simp only [Packet.cid] at hcid
      have hb2 : b ≠ cid := by rw [hcid]; exact hb
      rw [onPacket_eq_cont s raw cid seq payload hdec]
      unfold handleCont
      split
      · rfl
      · exact getCh_handleContCh_ne s cid seq payload _ b hb2

end FeitianSK

namespace FeitianSK

/-! ## Branch equations for the packet handlers. -/

theorem handleInit_complete (s : Engine) (cid cmd totalLen : Nat) (payload : List Nat)
    (h0 : cid ≠ 0) (hB : cid ≠ broadcastCid)
    (hlock : lockHeldByOther s.table cid = false)
    (hmax : totalLen ≤ maxMsgSize)
    (hfit : (payload.take totalLen).length = totalLen) :
    handleInit s cid cmd totalLen payload = completeMsg s cid cmd (payload.take totalLen) := by
  unfold handleInit
  rw [if_neg (by simp [h0, hB]), if_neg (by simp [hlock]), if_neg (by omega), if_pos hfit]

theorem handleInit_receiving (s : Engine) (cid cmd totalLen : Nat) (payload : List Nat)
    (h0 : cid ≠ 0) (hB : cid ≠ broadcastCid)
    (hlock : lockHeldByOther s.table cid = false)
    (hmax : totalLen ≤ maxMsgSize)
    (hnofit : (payload.take totalLen).length ≠ totalLen) :
    handleInit s cid cmd totalLen payload
      = ({ s with table := setCh s.table cid (receivingCh s cid cmd totalLen (payload.take totalLen)) }, []) := by
  unfold handleInit
  rw [if_neg (by simp [h0, hB]), if_neg (by simp [hlock]), if_neg (by omega), if_neg hnofit]

theorem handleCont_eq (s : Engine) (cid seq : Nat) (payload : List Nat)
    (h0 : cid ≠ 0) (hB : cid ≠ broadcastCid) :
    handleCont s cid seq payload = handleContCh s cid seq payload (getCh s.table cid) := by
  unfold handleCont
  rw [if_neg (by simp [h0, hB])]

theorem handleContCh_mismatch (s : Engine) (cid seq : Nat) (payload : List Nat)
    (m : Message) (f : Bool) (hseq : seq ≠ m.nextSeq) :
    handleContCh s cid seq payload ⟨ChState.Receiving, some m, f⟩
      = ({ s with table := setCh s.table cid ⟨ChState.Idle, none, false⟩ },
         [Event.send (errPacket cid ErrCode.InvalidSeq)]) := by
  rw [handleContCh]
  rw [if_neg hseq]

theorem handleContCh_complete (s : Engine) (cid seq : Nat) (payload : List Nat)
    (m : Message) (f : Bool) (hseq : seq = m.nextSeq)
    (hlen : (m.buffer ++ payload.take (m.totalLen - m.buffer.length)).length = m.totalLen) :
    handleContCh s cid seq payload ⟨ChState.Receiving, some m, f⟩
      = completeMsg s cid m.cmd (m.buffer ++ payload.take (m.totalLen - m.buffer.length)) := by
  rw [handleContCh]
  rw [if_pos hseq, if_pos hlen]

theorem handleContCh_append (s : Engine) (cid seq : Nat) (payload : List Nat)
    (m : Message) (f : Bool) (hseq : seq = m.nextSeq)
    (hlen : (m.buffer ++ payload.take (m.totalLen - m.buffer.length)).length ≠ m.totalLen) :
    handleContCh s cid seq payload ⟨ChState.Receiving, some m, f⟩
      = ({ s with table := setCh s.table cid (contUpdCh m f (m.buffer ++ payload.take (m.totalLen - m.buffer.length))) }, []) := by
  rw [handleContCh]
  rw [if_pos hseq, if_neg hlen]

theorem replay_nil (s : Engine) : replay s [] = (s, []) := rfl

theorem replay_cons (s : Engine) (raw : List Nat) (rest : List (List Nat)) :
    replay s (raw :: rest)
      = ((replay (onPacket s raw).1 rest).1,
         (onPacket s raw).2 ++ (replay (onPacket s raw).1 rest).2) := rfl

theorem contPacketsFuel_nil (fuel cid seq0 : Nat) : contPacketsFuel fuel cid seq0 [] = [] := by
  cases fuel <;> rfl

theorem contPacketsFuel_cons (fuel cid seq0 : Nat) (rest : List Nat) (h : rest ≠ []) :
    contPacketsFuel (fuel + 1) cid seq0 rest
      = encode_cont cid seq0 (rest.take contCapacity)
        :: contPacketsFuel fuel cid (seq0 + 1) (rest.drop contCapacity) := by
  conv_lhs => rw [contPacketsFuel]
  rw [if_neg (by simpa [List.isEmpty_iff] using h)]

end FeitianSK

namespace FeitianSK

/-! ## The reassembly induction over continuation packets. -/

theorem replay_contFuel (fuel : Nat) :
    ∀ (rest : List Nat) (s : Engine) (cid : Nat) (m : Message) (f : Bool),
    getCh s.table cid = ⟨ChState.Receiving, some m, f⟩ →
    m.buffer.length + rest.length = m.totalLen →
    rest ≠ [] →
    rest.length ≤ (128 - m.nextSeq) * contCapacity →
    rest.length ≤ fuel * contCapacity →
    cid ≠ 0 → cid ≠ broadcastCid → cid < 2 ^ 32 →
    (replay s (contPacketsFuel fuel cid m.nextSeq rest)).2
      = [Event.dispatch cid m.cmd (m.buffer ++ rest)] := by
  induction fuel with
  | zero =>
    intro rest s cid m f hch hlen hne hseqB hfuel h0 hB h32
    have hz : rest.length = 0 := by simpa using hfuel
    exact absurd (List.eq_nil_of_length_eq_zero hz) hne
  | succ fuel ih =>
    intro rest s cid m f hch hlen hne hseqB hfuel h0 hB h32
    have hcc : contCapacity = 59 := rfl
    rw [hcc] at hseqB hfuel
    have hpos : 0 < rest.length := List.length_pos.mpr hne
    have hseqlt : m.nextSeq < 128 := by
      by_contra hge
      push_neg at hge
      omega
    rw [contPacketsFuel_cons fuel cid m.nextSeq rest hne, replay_cons]
    rw [onPacket_eq_cont s _ cid m.nextSeq (padTo contCapacity (rest.take contCapacity))
      (decode_encode_cont cid m.nextSeq (rest.take contCapacity) h32 hseqlt)]
    rw [handleCont_eq s cid m.nextSeq _ h0 hB, hch]
    have hsub : m.totalLen - m.buffer.length = rest.length := by omega
    have hkey : (padTo contCapacity (rest.take contCapacity)).take
        (m.totalLen - m.buffer.length) = rest.take contCapacity := by
      rw [hsub]
      exact take_padTo contCapacity rest
    by_cases hlast : rest.length ≤ contCapacity
    · have htake : rest.take contCapacity = rest :=
        List.take_of_length_le (by omega)
      have hcomp : (m.buffer ++ (padTo contCapacity (rest.take contCapacity)).take
          (m.totalLen - m.buffer.length)).length = m.totalLen := by
        rw [hkey, htake]
        simp
        omega
      rw [handleContCh_complete s cid m.nextSeq _ m f rfl hcomp]
      have hdrop : rest.drop contCapacity = [] :=
        List.drop_eq_nil_of_le (by omega)
      rw [hdrop, contPacketsFuel_nil, replay_nil, hkey, htake]
      simp [completeMsg]
    · push_neg at hlast
      have hmid : (m.buffer ++ (padTo contCapacity (rest.take contCapacity)).take
          (m.totalLen - m.buffer.length)).length ≠ m.totalLen := by
        rw [hkey]
        simp [List.length_take]
        omega
      rw [handleContCh_append s cid m.nextSeq _ m f rfl hmid, hkey]
      have happ := ih (rest.drop contCapacity)
        ({ s with table := setCh s.table cid (contUpdCh m f (m.buffer ++ rest.take contCapacity)) })
        cid { m with buffer := m.buffer ++ rest.take contCapacity, nextSeq := m.nextSeq + 1 } f
        (by rw [getCh_setCh_self]; rfl)
        (by simp [List.length_take, List.length_drop]; omega)
        (by rw [← List.length_pos, List.length_drop]; omega)
        (by simp [List.length_drop, hcc]; omega)
        (by simp [List.length_drop, hcc]; omega)
        h0 hB h32
      simp only [List.nil_append]
      rw [happ]
      simp only [List.append_assoc, List.take_append_drop]

end FeitianSK

namespace FeitianSK

/-! ## Claim theorems. -/

/-- C1: For every payload of length at most the maximum message size,
splitting it per the capacity rules (one init packet of capacity R - 7,
continuation packets of capacity R - 5) and replaying the packets in
order through the engine's packet-receiving entry point yields a
reassembled payload handed to the dispatcher byte-identical to the
original. -/
theorem reassembly_roundtrip (s : Engine) (cid cmd : Nat) (payload : List Nat)
    (hL : payload.length ≤ maxMsgSize)
    (h0 : cid ≠ 0) (hB : cid ≠ broadcastCid) (h32 : cid < 2 ^ 32) (hcmd : cmd < 128)
    (hlock : lockHeldByOther s.table cid = false) :
    (replay s (splitMessage cid cmd payload)).2 = [Event.dispatch cid cmd payload] := by
  have hic : initCapacity = 57 := rfl
  have hcc : contCapacity = 59 := rfl
  have hmax : maxMsgSize = 7609 := rfl
  rw [hmax] at hL
  unfold splitMessage
  rw [replay_cons]
  rw [onPacket_eq_init s _ cid cmd payload.length (padTo initCapacity (payload.take initCapacity))
    (decode_encode_init cid cmd payload.length (payload.take initCapacity) h32 hcmd (by omega))]
  by_cases hfits : payload.length ≤ initCapacity
  · have hp1 : payload.take initCapacity = payload := List.take_of_length_le hfits
    have hbuf : (padTo initCapacity (payload.take initCapacity)).take payload.length = payload := by
      rw [hp1, padTo, List.take_of_length_le hfits, List.take_left' rfl]
    have hfit : ((padTo initCapacity (payload.take initCapacity)).take payload.length).length
        = payload.length := by rw [hbuf]
    rw [handleInit_complete s cid cmd payload.length _ h0 hB hlock (by omega) hfit]
    have hdrop : payload.drop initCapacity = [] := List.drop_eq_nil_of_le hfits
    rw [hdrop]
    have hcp : contPackets cid 0 ([] : List Nat) = [] := rfl
    rw [hcp, replay_nil, hbuf]
    simp [completeMsg]
  · push_neg at hfits
    have hp57 : (payload.take initCapacity).length = initCapacity := by
      simp [List.length_take]
      omega
    have hbuf : (padTo initCapacity (payload.take initCapacity)).take payload.length
        = payload.take initCapacity := by
      rw [padTo_eq_of_length _ _ hp57]
      exact List.take_of_length_le (by omega)
    have hnofit : ((padTo initCapacity (payload.take initCapacity)).take payload.length).length
        ≠ payload.length := by
      rw [hbuf, hp57]
      omega
    rw [handleInit_receiving s cid cmd payload.length _ h0 hB hlock (by omega) hnofit]
    simp only [List.nil_append]
    rw [hbuf, contPackets]
    have happ := replay_contFuel (payload.drop initCapacity).length (payload.drop initCapacity)
      ({ s with table := setCh s.table cid (receivingCh s cid cmd payload.length (payload.take initCapacity)) })
      cid ⟨cid, cmd, payload.length, payload.take initCapacity, 0, s.clock⟩
      ((getCh s.table cid).lockFlag)
      (by rw [getCh_setCh_self]; rfl)
      (by simp only [hp57, List.length_drop]; omega)
      (by rw [← List.length_pos, List.length_drop]; omega)
      (by simp only [List.length_drop, hcc]; omega)
      (by simp only [List.length_drop, hcc]; omega)
      h0 hB h32
    rw [happ]
    simp only [List.take_append_drop]

/-- C2: For every raw input whose length differs from the fixed report
size, decoding fails with the MalformedPacket error; it is never treated
as a valid initialization or continuation packet. -/
theorem decode_malformed_length (raw : List Nat) (h : raw.length ≠ reportSize) :
    decode raw = Except.error CodecError.MalformedPacket :=
  decode_ne_length raw h

/-- C3: Every received report of the wrong packet length is a framing
error: the engine answers with a single ERROR packet on the
best-determinable channel, the engine state is unchanged, and nothing of
the offending input is emitted back (the whole response is the fixed
ERROR frame). -/
theorem framing_error_discarded (s : Engine) (raw : List Nat) (h : raw.length ≠ reportSize) :
    onPacket s raw = (s, [Event.send (errPacket (bestCid raw) ErrCode.Other)]) :=
  onPacket_eq_error s raw (decode_ne_length raw h)

/-- C4: On a channel in the Receiving state, a continuation packet whose
sequence number differs from the next-expected value aborts the in-flight
transaction, emits an InvalidSeq error, and returns that channel to the
Idle state. -/
theorem invalid_seq_aborts (s : Engine) (cid seq : Nat) (sl : List Nat) (m : Message) (f : Bool)
    (hch : getCh s.table cid = ⟨ChState.Receiving, some m, f⟩)
    (hseq : seq ≠ m.nextSeq) (hseq7 : seq < 128)
    (h0 : cid ≠ 0) (hB : cid ≠ broadcastCid) (h32 : cid < 2 ^ 32) :
    onPacket s (encode_cont cid seq sl)
      = ({ s with table := setCh s.table cid ⟨ChState.Idle, none, false⟩ },
         [Event.send (errPacket cid ErrCode.InvalidSeq)])
    ∧ (getCh (onPacket s (encode_cont cid seq sl)).1.table cid).st = ChState.Idle := by
  have heq : onPacket s (encode_cont cid seq sl)
      = ({ s with table := setCh s.table cid ⟨ChState.Idle, none, false⟩ },
         [Event.send (errPacket cid ErrCode.InvalidSeq)]) := by
    rw [onPacket_eq_cont s _ cid seq (padTo contCapacity sl)
      (decode_encode_cont cid seq sl h32 hseq7)]
    rw [handleCont_eq s cid seq _ h0 hB, hch]
    exact handleContCh_mismatch s cid seq _ m f hseq
  refine ⟨heq, ?_⟩
  rw [heq]
  simp [getCh_setCh_self]

/-- C5: In every reachable engine state at most one channel holds the
lock, and while some channel holds it every command (init packet)
arriving on a different channel is rejected with a LockRequired error and
left unprocessed. -/
theorem lock_exclusive (s : Engine) (hreach : Reachable s) :
    (∀ a b : Nat, (getCh s.table a).lockFlag = true → (getCh s.table b).lockFlag = true → a = b)
    ∧ ∀ (a cid cmd tl : Nat) (pl : List Nat),
        (getCh s.table a).lockFlag = true → a ≠ cid →
        cid ≠ 0 → cid ≠ broadcastCid → cid < 2 ^ 32 → cmd < 128 → tl < 2 ^ 16 →
        onPacket s (encode_init cid cmd tl pl)
          = (s, [Event.send (errPacket cid ErrCode.LockRequired)]) := by
  refine ⟨reachable_LockInv s hreach, ?_⟩
  intro a cid cmd tl pl hflag hane h0 hB h32 hcmd htl
  rw [onPacket_eq_init s _ cid cmd tl (padTo initCapacity pl)
    (decode_encode_init cid cmd tl pl h32 hcmd htl)]
  unfold handleInit
  rw [if_neg (by simp [h0, hB]), if_pos (lockHeldByOther_true s.table cid a hflag hane)]

/-- C6: A protocol violation (or any other event) on one channel leaves
every other channel's per-channel state unchanged: a received report only
affects the channel named in its first four bytes, and a timer tick
leaves every non-timed-out channel untouched. -/
theorem channel_isolation (s : Engine) (raw : List Nat) (now b : Nat)
    (hb : b ≠ bestCid raw)
    (ht : ∀ m : Message, (getCh s.table b).st = ChState.Receiving →
      (getCh s.table b).msg = some m → now - m.created ≤ timeoutWindow) :
    getCh (onPacket s raw).1.table b = getCh s.table b
    ∧ getCh (onTick s now).1.table b = getCh s.table b := by
  refine ⟨getCh_onPacket_ne s raw b hb, ?_⟩
  rw [getCh_onTick]
  exact tickCh_keep now _ ht

/-- C7: A payload of exactly R - 7 bytes splits into exactly one init
packet and zero continuation packets, and replaying that single packet
dispatches the full payload immediately with the channel entering
Dispatching directly, so the Receiving state is skipped. -/
theorem single_init_roundtrip (s : Engine) (cid cmd : Nat) (payload : List Nat)
    (hlen : payload.length = initCapacity)
    (h0 : cid ≠ 0) (hB : cid ≠ broadcastCid) (h32 : cid < 2 ^ 32) (hcmd : cmd < 128)
    (hlock : lockHeldByOther s.table cid = false) :
    splitMessage cid cmd payload = [encode_init cid cmd initCapacity payload]
    ∧ (onPacket s (encode_init cid cmd initCapacity payload)).2
        = [Event.dispatch cid cmd payload]
    ∧ (getCh (onPacket s (encode_init cid cmd initCapacity payload)).1.table cid).st
        = ChState.Dispatching := by
  have htk : payload.take initCapacity = payload := List.take_of_length_le (le_of_eq hlen)
  have hsplit : splitMessage cid cmd payload = [encode_init cid cmd initCapacity payload] := by
    unfold splitMessage
    rw [hlen, htk, List.drop_eq_nil_of_le (le_of_eq hlen)]
    rfl
  have hpad : padTo initCapacity payload = payload := padTo_eq_of_length _ _ hlen
  have heq : onPacket s (encode_init cid cmd initCapacity payload)
      = completeMsg s cid cmd payload := by
    rw [onPacket_eq_init s _ cid cmd initCapacity (padTo initCapacity payload)
      (decode_encode_init cid cmd initCapacity payload h32 hcmd (by norm_num [initCapacity, reportSize]))]
    rw [hpad]
    rw [handleInit_complete s cid cmd initCapacity payload h0 hB hlock
      (by norm_num [maxMsgSize, initCapacity, contCapacity, reportSize])
      (by rw [htk, hlen])]
    rw [htk]
  refine ⟨hsplit, ?_, ?_⟩
  · rw [heq]
    simp [completeMsg]
  · rw [heq]
    simp [completeMsg, getCh_setCh_self, dispatchCh]

/-- C8: The lifecycle call init() resets the ChannelTable (every channel
idle, no message, no lock) and the timers (clock zero), obtains the
command-processor handle, and performs no protocol work: it emits no
events and leaves no channel in a non-idle state. -/
theorem engineInit_resets (s : Engine) :
    (engineInit s).2 = []
    ∧ (∀ c : Nat, getCh (engineInit s).1.table c = ⟨ChState.Idle, none, false⟩)
    ∧ (engineInit s).1.clock = 0
    ∧ (engineInit s).1.hasDispatcher = true :=
  ⟨rfl, fun _ => rfl, rfl, rfl⟩

/-- C9: For every input byte slice of every length, including the empty
slice and lengths different from the report size, on_usb_data returns its
input unchanged and never rejects or errors. -/
theorem on_usb_data_echo : ∀ data : List Nat, on_usb_data data = data := fun _ => rfl

/-- C10: on_usb_data is deterministic and stateless: after any two call
histories its output on equal inputs is equal, and neither on_usb_data
nor init mutates any module state observable by later calls. -/
theorem on_usb_data_stateless :
    ∀ (h1 h2 : List Call) (s1 s2 : ModState) (d : List Nat),
      (on_usb_data_st (runState s1 h1) d).2 = (on_usb_data_st (runState s2 h2) d).2
      ∧ (on_usb_data_st (runState s1 h1) d).1 = runState s1 h1
      ∧ init (runState s1 h1) = runState s1 h1 :=
  fun _ _ _ _ _ => ⟨rfl, rfl, rfl⟩

end FeitianSK

namespace FeitianSK

/-! ## Witnesses instantiating the claim theorems at concrete inputs. -/

set_option maxRecDepth 1000000 in
theorem reassembly_roundtrip_witness :
    (List.replicate 60 7).length ≤ maxMsgSize
    ∧ lockHeldByOther initEngine.table 1 = false
    ∧ (replay initEngine (splitMessage 1 1 (List.replicate 60 7))).2
        = [Event.dispatch 1 1 (List.replicate 60 7)] :=
  ⟨by decide, by decide,
   reassembly_roundtrip initEngine 1 1 (List.replicate 60 7) (by decide) (by decide)
     (by decide) (by decide) (by decide) (by decide)⟩

theorem decode_malformed_length_witness :
    ([] : List Nat).length ≠ reportSize
    ∧ decode [] = Except.error CodecError.MalformedPacket :=
  ⟨by decide, decode_malformed_length [] (by decide)⟩

theorem framing_error_discarded_witness :
    ([1, 2, 3] : List Nat).length ≠ reportSize
    ∧ onPacket initEngine [1, 2, 3]
        = (initEngine, [Event.send (errPacket (bestCid [1, 2, 3]) ErrCode.Other)]) :=
  ⟨by decide, framing_error_discarded initEngine [1, 2, 3] (by decide)⟩

set_option maxRecDepth 1000000 in
theorem invalid_seq_aborts_witness :
    getCh (⟨[(1, ⟨ChState.Receiving, some ⟨1, 1, 100, List.replicate 57 0, 0, 0⟩, false⟩)], 0, true⟩ : Engine).table 1
      = ⟨ChState.Receiving, some ⟨1, 1, 100, List.replicate 57 0, 0, 0⟩, false⟩
    ∧ (5 : Nat) ≠ (⟨1, 1, 100, List.replicate 57 0, 0, 0⟩ : Message).nextSeq
    ∧ (onPacket (⟨[(1, ⟨ChState.Receiving, some ⟨1, 1, 100, List.replicate 57 0, 0, 0⟩, false⟩)], 0, true⟩ : Engine) (encode_cont 1 5 [])
        = ({ (⟨[(1, ⟨ChState.Receiving, some ⟨1, 1, 100, List.replicate 57 0, 0, 0⟩, false⟩)], 0, true⟩ : Engine) with
              table := setCh (⟨[(1, ⟨ChState.Receiving, some ⟨1, 1, 100, List.replicate 57 0, 0, 0⟩, false⟩)], 0, true⟩ : Engine).table 1 ⟨ChState.Idle, none, false⟩ },
           [Event.send (errPacket 1 ErrCode.InvalidSeq)])
       ∧ (getCh (onPacket (⟨[(1, ⟨ChState.Receiving, some ⟨1, 1, 100, List.replicate 57 0, 0, 0⟩, false⟩)], 0, true⟩ : Engine) (encode_cont 1 5 [])).1.table 1).st = ChState.Idle) :=
  ⟨by decide, by decide,
   invalid_seq_aborts (⟨[(1, ⟨ChState.Receiving, some ⟨1, 1, 100, List.replicate 57 0, 0, 0⟩, false⟩)], 0, true⟩ : Engine)
     1 5 [] ⟨1, 1, 100, List.replicate 57 0, 0, 0⟩ false
     (by decide) (by decide) (by decide) (by decide) (by decide) (by decide)⟩

set_option maxRecDepth 1000000 in
theorem lock_exclusive_witness :
    (getCh (onPacket initEngine (encode_init 1 cmdLOCK 1 [1])).1.table 1).lockFlag = true
    ∧ onPacket (onPacket initEngine (encode_init 1 cmdLOCK 1 [1])).1 (encode_init 2 cmdPING 0 [])
        = ((onPacket initEngine (encode_init 1 cmdLOCK 1 [1])).1,
           [Event.send (errPacket 2 ErrCode.LockRequired)]) := by
  have h := lock_exclusive (onPacket initEngine (encode_init 1 cmdLOCK 1 [1])).1
    (Reachable.step Reachable.base (Step.pkt initEngine (encode_init 1 cmdLOCK 1 [1])))
  exact ⟨by decide, h.2 1 2 cmdPING 0 [] (by decide) (by decide) (by decide) (by decide)
    (by decide) (by decide) (by decide)⟩

set_option maxRecDepth 1000000 in
theorem channel_isolation_witness :
    (2 : Nat) ≠ bestCid (encode_cont 1 5 [])
    ∧ (getCh (onPacket initEngine (encode_cont 1 5 [])).1.table 2 = getCh initEngine.table 2
       ∧ getCh (onTick initEngine 1000).1.table 2 = getCh initEngine.table 2) :=
  ⟨by decide, channel_isolation initEngine (encode_cont 1 5 []) 1000 2 (by decide)
    (fun m h1 h2 => absurd h1 (by decide))⟩

set_option maxRecDepth 1000000 in
theorem single_init_roundtrip_witness :
    (List.replicate 57 3).length = initCapacity
    ∧ lockHeldByOther initEngine.table 1 = false
    ∧ (splitMessage 1 1 (List.replicate 57 3) = [encode_init 1 1 initCapacity (List.replicate 57 3)]
       ∧ (onPacket initEngine (encode_init 1 1 initCapacity (List.replicate 57 3))).2
           = [Event.dispatch 1 1 (List.replicate 57 3)]
       ∧ (getCh (onPacket initEngine (encode_init 1 1 initCapacity (List.replicate 57 3))).1.table 1).st
           = ChState.Dispatching) :=
  ⟨by decide, by decide,
   single_init_roundtrip initEngine 1 1 (List.replicate 57 3) (by decide) (by decide)
     (by decide) (by decide) (by decide) (by decide)⟩

end FeitianSK
